import Mathlib

/-!
Verification development for the WebGPU Monte Carlo π estimator (`32_sci`).

The definitions below are a shallow embedding of the repository's code:
* `src/src/shaders/simulation.wgsl` — the compute kernel (constants, the
  per-lane `private_total` computation, the sharded overflow-safe global
  atomic aggregation, and the optional subgroup-reduction variant that
  `gpu_manager.js` splices in at the injection point);
* `src/src/core/gpu_manager.js` — the host orchestrator (`createResources`
  RNG seeding, `runFrame` readback handling, `resetStats`, the host-side
  summation of all 1024 slots as `low + high·2^32`);
* `src/src/main.js` (provided as `src/unnamed/part_003`, second document) —
  the application state machine (`reset`, `completeScientificBenchmark`).

Machine words (`u32`) are modelled as `ℕ` with explicit `% 2^32`; JavaScript
`BigInt` accumulators are modelled as `ℤ`; the float metric arithmetic of
`completeScientificBenchmark` is modelled over `ℚ`, with the host's
`Math.sqrt(steadyTotal)` and `Math.PI` values passed as parameters.
-/

namespace SciPi

/-- `2^32`, the wraparound modulus of a `u32` field. -/
def two32 : ℕ := 4294967296

/-- `2^64`, the capacity of one `low`/`high` counter pair. -/
def two64 : ℕ := 18446744073709551616

/-- `simulation.wgsl`: `const NUM_SLOTS = 1024u;` — fixed shard count. -/
def NUM_SLOTS : ℕ := 1024

/-- `simulation.wgsl`: `const WORKGROUP_SIZE = 256u;`. -/
def WORKGROUP_SIZE : ℕ := 256

/-- `gpu_manager.js`: `this.totalThreads = 128 * 256; // 32,768 threads fixed`. -/
def totalThreads : ℕ := 32768

/-- `simulation.wgsl` line 131: `let slot_idx = gid % NUM_SLOTS;`. -/
def slotIdx (gid : ℕ) : ℕ := gid % NUM_SLOTS

/-- `simulation.wgsl` line 116: `let private_total = count * 8u;` — a `u32`
multiply, so the product wraps modulo `2^32`. -/
def privateTotal (batchSize : ℕ) : ℕ := (batchSize * 8) % two32

/-- One 64-bit-equivalent counter built from two `u32` fields, as in the
`Slot` struct of `simulation.wgsl` (`inside_low/inside_high` or
`total_low/total_high`). Both fields are `u32` values. -/
@[ext]
structure Counter where
  low : ℕ
  high : ℕ
deriving DecidableEq

/-- A cleared counter (`clearBuffer` zero-fills the result buffer). -/
def counterZero : Counter := ⟨0, 0⟩

/-- `simulation.wgsl` lines 130–139 (and the injected subgroup block):
`let old = atomicAdd(&low, delta); if (old + delta < old) { atomicAdd(&high, 1u); }`.
The `u32` sum `old + delta` wraps modulo `2^32`; the unsigned comparison
detects the wraparound, in which case the `high` field is incremented
(itself a `u32` increment). -/
def addCarry (c : Counter) (delta : ℕ) : Counter :=
  if (c.low + delta) % two32 < c.low then
    ⟨(c.low + delta) % two32, (c.high + 1) % two32⟩
  else
    ⟨(c.low + delta) % two32, c.high⟩

/-- `gpu_manager.js` lines 370–381: the host reads one counter pair as
`BigInt(low) + (BigInt(high) << 32n)`. -/
def hostValue (c : Counter) : ℕ := c.low + c.high * two32

/-- The canonical counter holding a running total `S`: the `low` word is
`S mod 2^32` and the `high` word is the (wrapped) carry count `S / 2^32`. -/
def ofTotal (S : ℕ) : Counter := ⟨S % two32, S / two32 % two32⟩

/-- The result buffer as cleared at the start of a measurement window. -/
def initSlots : ℕ → Counter := fun _ => counterZero

/-- A sequence of global atomic additions, each targeting one shard:
`(slot index, u32 delta)` pairs, applied in order. This models the stream
of `atomicAdd` operations on one counter field (`inside` or `total`) of the
result buffer; a single writer per slot per addition is assumed, which is
what sequential application expresses. -/
def applyShardedDeltas (st : ℕ → Counter) (ds : List (ℕ × ℕ)) : ℕ → Counter :=
  ds.foldl (fun acc p => Function.update acc p.1 (addCarry (acc p.1) p.2)) st

/-- `gpu_manager.js` lines 370–381: the host sums all `NUM_SLOTS` shards'
`low + high·2^32` values. -/
def hostSum (st : ℕ → Counter) : ℕ :=
  ∑ s ∈ Finset.range NUM_SLOTS, hostValue (st s)

/-- The exact mathematical sum of all deltas in a stream. -/
def listSum (ds : List (ℕ × ℕ)) : ℕ := (ds.map Prod.snd).sum

/-- The deltas of a stream that target shard `s`, in order. -/
def slotDeltas (ds : List (ℕ × ℕ)) (s : ℕ) : List ℕ :=
  (ds.filter (fun p => p.1 = s)).map Prod.snd

theorem ofTotal_zero : ofTotal 0 = counterZero := by
  simp [ofTotal, counterZero, two32]

theorem addCarry_ofTotal (S d : ℕ) (hd : d < two32) :
    addCarry (ofTotal S) d = ofTotal (S + d) := by
  unfold addCarry ofTotal
  simp only [two32] at *
  split <;> ext <;> simp_all <;> omega

theorem foldl_addCarry_ofTotal (l : List ℕ) (S : ℕ) (h : ∀ d ∈ l, d < two32) :
    l.foldl addCarry (ofTotal S) = ofTotal (S + l.sum) := by
  induction l generalizing S with
  | nil => simp
  | cons d t ih =>
      rw [List.foldl_cons, addCarry_ofTotal S d (h d (by simp)),
        ih (S + d) (fun x hx => h x (by simp [hx])), List.sum_cons, Nat.add_assoc]

theorem hostValue_ofTotal (S : ℕ) (h : S < two64) : hostValue (ofTotal S) = S := by
  unfold hostValue ofTotal
  simp only [two32, two64] at *
  omega

theorem applyShardedDeltas_slot (ds : List (ℕ × ℕ)) (st : ℕ → Counter) (s : ℕ) :
    applyShardedDeltas st ds s = (slotDeltas ds s).foldl addCarry (st s) := by
  induction ds generalizing st with
  | nil => rfl
  | cons p t ih =>
      have hfold : applyShardedDeltas st (p :: t) s =
          applyShardedDeltas (Function.update st p.1 (addCarry (st p.1) p.2)) t s := rfl
      rw [hfold, ih]
      by_cases hp : p.1 = s
      · have hsd : slotDeltas (p :: t) s = p.2 :: slotDeltas t s := by
          simp [slotDeltas, List.filter_cons, hp]
        have hup : Function.update st p.1 (addCarry (st p.1) p.2) s = addCarry (st s) p.2 := by
          rw [hp]
          simp
        rw [hsd, List.foldl_cons, hup]
      · have hsd : slotDeltas (p :: t) s = slotDeltas t s := by
          simp [slotDeltas, List.filter_cons, hp]
        have hup : Function.update st p.1 (addCarry (st p.1) p.2) s = st s := by
          exact Function.update_noteq (fun hs => hp hs.symm) _ _
        rw [hsd, hup]

theorem sum_slotDeltas (ds : List (ℕ × ℕ)) (h : ∀ p ∈ ds, p.1 < NUM_SLOTS) :
    ∑ s ∈ Finset.range NUM_SLOTS, (slotDeltas ds s).sum = listSum ds := by
  induction ds with
  | nil => simp [slotDeltas, listSum]
  | cons p t ih =>
      have hstep : ∀ s, (slotDeltas (p :: t) s).sum =
          (if p.1 = s then p.2 else 0) + (slotDeltas t s).sum := by
        intro s
        unfold slotDeltas
        rw [List.filter_cons]
        by_cases hp : p.1 = s <;> simp [hp]
      simp only [hstep]
      rw [Finset.sum_add_distrib, ih (fun q hq => h q (by simp [hq]))]
      rw [Finset.sum_ite_eq (Finset.range NUM_SLOTS) p.1 (fun _ => p.2)]
      have hmem : p.1 ∈ Finset.range NUM_SLOTS := by
        exact Finset.mem_range.mpr (h p (by simp))
      simp [hmem, listSum]

theorem slotDeltas_sum_le (ds : List (ℕ × ℕ)) (s : ℕ) :
    (slotDeltas ds s).sum ≤ listSum ds := by
  induction ds with
  | nil => simp [slotDeltas, listSum]
  | cons p t ih =>
      have hstep : (slotDeltas (p :: t) s).sum =
          (if p.1 = s then p.2 else 0) + (slotDeltas t s).sum := by
        unfold slotDeltas
        rw [List.filter_cons]
        by_cases hp : p.1 = s <;> simp [hp]
      have hl : listSum (p :: t) = p.2 + listSum t := by simp [listSum]
      rw [hstep, hl]
      by_cases hp : p.1 = s <;> simp [hp] <;> omega

/-- Core exactness of the sharded overflow-safe accumulation: applying any
stream of in-range atomic additions to the cleared result buffer and then
reading it back the way the host does yields the exact mathematical sum of
all deltas, as long as no single shard's running total exceeds `2^64`
(the capacity of its `u32` low/high pair). -/
theorem hostSum_applyShardedDeltas (ds : List (ℕ × ℕ))
    (hdelta : ∀ p ∈ ds, p.2 < two32)
    (hslot : ∀ p ∈ ds, p.1 < NUM_SLOTS)
    (hbound : listSum ds < two64) :
    hostSum (applyShardedDeltas initSlots ds) = listSum ds := by
  have hmemdelta : ∀ s, ∀ d ∈ slotDeltas ds s, d < two32 := by
    intro s d hd
    unfold slotDeltas at hd
    obtain ⟨p, hp, rfl⟩ := List.mem_map.mp hd
    exact hdelta p (List.mem_of_mem_filter hp)
  have hslotval : ∀ s, applyShardedDeltas initSlots ds s =
      ofTotal (slotDeltas ds s).sum := by
    intro s
    rw [applyShardedDeltas_slot]
    have h0 : initSlots s = ofTotal 0 := by rw [ofTotal_zero]; rfl
    rw [h0, foldl_addCarry_ofTotal _ _ (hmemdelta s), Nat.zero_add]
  unfold hostSum
  have hval : ∀ s ∈ Finset.range NUM_SLOTS,
      hostValue (applyShardedDeltas initSlots ds s) = (slotDeltas ds s).sum := by
    intro s _
    rw [hslotval s]
    exact hostValue_ofTotal _ (lt_of_le_of_lt (slotDeltas_sum_le ds s) hbound)
  rw [Finset.sum_congr rfl hval]
  exact sum_slotDeltas ds hslot

/-!
## Dispatch-level models

`simulation.wgsl`, section 6 (the code after the
`GPU_OPTIMIZATION_INJECTION_POINT` tag in the shipped shader): every lane
`gid` of the dispatch unconditionally executes
`atomicAdd(&result.slots[gid % NUM_SLOTS].inside_low, u_private_inside)` and
`atomicAdd(&result.slots[gid % NUM_SLOTS].total_low, private_total)`
(each followed by the carry check embedded in `addCarry`). The per-lane
private inside count `u_private_inside` depends on the lane's RNG state and
on `f32` circle tests; both shader variants share that sampling loop
verbatim, so it is abstracted here as a function `insides : ℕ → ℕ` from the
lane id to its private inside count. The `inside` and `total` streams touch
disjoint `u32` fields of each slot, so they are modelled as two independent
delta streams.
-/

/-- Baseline (non-subgroup) path, `inside` field: one global atomic add per
lane, lane `gid` contributing its own `u_private_inside` to slot
`gid % NUM_SLOTS`. -/
def baselineInsideDeltas (insides : ℕ → ℕ) (L : ℕ) : List (ℕ × ℕ) :=
  (List.range L).map (fun g => (slotIdx g, insides g))

/-- Baseline (non-subgroup) path, `total` field: one global atomic add per
lane, lane `gid` contributing `private_total = batch_size * 8u` to slot
`gid % NUM_SLOTS`. -/
def baselineTotalDeltas (L b : ℕ) : List (ℕ × ℕ) :=
  (List.range L).map (fun g => (slotIdx g, privateTotal b))

/-- One full dispatch of the fixed 32,768-lane geometry
(`dispatchWorkgroups(128, 128)` at `WORKGROUP_SIZE = 256`, though only the
flat lane count matters for the aggregate), `total` field only. -/
def dispatchTotalDeltas (b : ℕ) : List (ℕ × ℕ) := baselineTotalDeltas totalThreads b

/-- `k` consecutive dispatches accumulating into the same result buffer
(`runFrame` with `readback: false` issues no copy/clear in between). -/
def iterateTotalDeltas (k b : ℕ) : List (ℕ × ℕ) :=
  (List.replicate k (dispatchTotalDeltas b)).flatten

/-- Subgroup-injected path (`initSimulationPipeline`, the optimized block
spliced at the injection tag), `inside` field: per subgroup `G`,
`wg_inside = subgroupAdd(u_private_inside)` (a `u32` sum, hence `% 2^32`)
and the single elected lane adds it to `Slot[its own gid % NUM_SLOTS]`.
The elected lane is modelled as the first lane of the subgroup. -/
def subgroupInsideDeltas (insides : ℕ → ℕ) (sg : List (List ℕ)) : List (ℕ × ℕ) :=
  sg.map (fun G => (slotIdx (G.headD 0), (G.map insides).sum % two32))

/-- Subgroup-injected path, `total` field: `wg_total = subgroupAdd(private_total)`
added once per subgroup by the elected lane. -/
def subgroupTotalDeltas (b : ℕ) (sg : List (List ℕ)) : List (ℕ × ℕ) :=
  sg.map (fun G => (slotIdx (G.headD 0), (G.map (fun _ => privateTotal b)).sum % two32))

theorem privateTotal_lt (b : ℕ) : privateTotal b < two32 := by
  unfold privateTotal two32
  omega

theorem slotIdx_lt (g : ℕ) : slotIdx g < NUM_SLOTS := by
  unfold slotIdx NUM_SLOTS
  omega

theorem listSum_baselineTotalDeltas (L b : ℕ) :
    listSum (baselineTotalDeltas L b) = L * privateTotal b := by
  unfold listSum baselineTotalDeltas
  induction L with
  | zero => simp
  | succ n ih =>
      rw [List.range_succ]
      simp only [List.map_append, List.map_map, List.sum_append] at *
      simp [ih, Nat.succ_mul]

theorem listSum_append (l1 l2 : List (ℕ × ℕ)) :
    listSum (l1 ++ l2) = listSum l1 + listSum l2 := by
  unfold listSum
  rw [List.map_append, List.sum_append]

theorem listSum_iterateTotalDeltas (k b : ℕ) :
    listSum (iterateTotalDeltas k b) = k * (totalThreads * privateTotal b) := by
  unfold iterateTotalDeltas
  induction k with
  | zero => simp [listSum]
  | succ n ih =>
      rw [List.replicate_succ, List.flatten_cons, listSum_append, ih,
        show listSum (dispatchTotalDeltas b) = totalThreads * privateTotal b from
          listSum_baselineTotalDeltas totalThreads b]
      ring

theorem mem_baselineTotalDeltas (L b : ℕ) (p : ℕ × ℕ)
    (hp : p ∈ baselineTotalDeltas L b) : p.1 < NUM_SLOTS ∧ p.2 = privateTotal b := by
  unfold baselineTotalDeltas at hp
  obtain ⟨g, _, rfl⟩ := List.mem_map.mp hp
  exact ⟨slotIdx_lt g, rfl⟩

theorem mem_iterateTotalDeltas (k b : ℕ) (p : ℕ × ℕ)
    (hp : p ∈ iterateTotalDeltas k b) : p.1 < NUM_SLOTS ∧ p.2 = privateTotal b := by
  unfold iterateTotalDeltas at hp
  obtain ⟨l, hl, hpl⟩ := List.mem_flatten.mp hp
  rw [List.eq_of_mem_replicate hl] at hpl
  exact mem_baselineTotalDeltas totalThreads b p hpl

theorem listSum_baselineInsideDeltas (insides : ℕ → ℕ) (L : ℕ) :
    listSum (baselineInsideDeltas insides L) = ((List.range L).map insides).sum := by
  unfold listSum baselineInsideDeltas
  rw [List.map_map]
  rfl

theorem listSum_subgroupInsideDeltas (insides : ℕ → ℕ) (sg : List (List ℕ))
    (hgi : ∀ G ∈ sg, (G.map insides).sum < two32) :
    listSum (subgroupInsideDeltas insides sg) = (sg.flatten.map insides).sum := by
  induction sg with
  | nil => simp [subgroupInsideDeltas, listSum]
  | cons G t ih =>
      unfold subgroupInsideDeltas listSum at *
      simp only [List.map_cons, List.sum_cons, List.flatten_cons, List.map_append,
        List.sum_append]
      rw [Nat.mod_eq_of_lt (hgi G (by simp)), ih (fun H hH => hgi H (by simp [hH]))]

theorem subgroupTotalDeltas_eq (b : ℕ) (sg : List (List ℕ)) :
    subgroupTotalDeltas b sg = subgroupInsideDeltas (fun _ => privateTotal b) sg := rfl

theorem listSum_range_lt (f : ℕ → ℕ) (hf : ∀ g, f g < two32) :
    ((List.range totalThreads).map f).sum < two64 := by
  have hle : ((List.range totalThreads).map f).sum ≤
      ((List.range totalThreads).map f).length • (two32 - 1) := by
    refine List.sum_le_card_nsmul _ _ ?_
    intro x hx
    obtain ⟨g, _, rfl⟩ := List.mem_map.mp hx
    have := hf g
    omega
  rw [List.length_map, List.length_range, smul_eq_mul] at hle
  unfold totalThreads two32 two64 at *
  omega

/-!
## RNG seeding (`gpu_manager.js`, `createResources`, lines 149–164)

The seed buffer holds `totalThreads * 16` `u32` words (512 bits per lane),
filled from `crypto.getRandomValues`. The patch loop then walks the buffer
in steps of 4 words and, whenever a 4-word group is entirely zero, writes
the constant `0x9E3779B9` into its first word.
-/

/-- `seedData[i] = 0x9E3779B9; // Standard constant to break zero-state`. -/
def SEED_PATCH : ℕ := 0x9E3779B9

/-- The zero-state patch loop of `createResources`: for each aligned group
of 4 words, if all four are zero the first is replaced by `SEED_PATCH`. -/
def patchSeeds : List ℕ → List ℕ
  | a :: b :: c :: d :: rest =>
      if a = 0 ∧ b = 0 ∧ c = 0 ∧ d = 0 then
        SEED_PATCH :: b :: c :: d :: patchSeeds rest
      else
        a :: b :: c :: d :: patchSeeds rest
  | l => l

theorem getD_cons4 (x1 x2 x3 x4 : ℕ) (l : List ℕ) (k : ℕ) :
    (x1 :: x2 :: x3 :: x4 :: l).getD (k + 4) 0 = l.getD k 0 := by
  rw [show k + 4 = k + 3 + 1 from rfl, List.getD_cons_succ,
    show k + 3 = k + 2 + 1 from rfl, List.getD_cons_succ,
    show k + 2 = k + 1 + 1 from rfl, List.getD_cons_succ, List.getD_cons_succ]

theorem patchSeeds_group_nonzero (m : ℕ) :
    ∀ l : List ℕ, 4 * m + 4 ≤ l.length →
      ∃ j < 4, (patchSeeds l).getD (4 * m + j) 0 ≠ 0 := by
  induction m with
  | zero =>
      intro l hlen
      obtain _ | ⟨a, _ | ⟨b, _ | ⟨c, _ | ⟨d, rest⟩⟩⟩⟩ := l <;> simp at hlen
      simp only [patchSeeds]
      by_cases hz : a = 0 ∧ b = 0 ∧ c = 0 ∧ d = 0
      · rw [if_pos hz]
        exact ⟨0, by norm_num, by simp [SEED_PATCH]⟩
      · rw [if_neg hz]
        by_cases ha : a = 0
        · by_cases hb : b = 0
          · by_cases hc : c = 0
            · have hd : d ≠ 0 := fun hd => hz ⟨ha, hb, hc, hd⟩
              exact ⟨3, by norm_num, by simpa using hd⟩
            · exact ⟨2, by norm_num, by simpa using hc⟩
          · exact ⟨1, by norm_num, by simpa using hb⟩
        · exact ⟨0, by norm_num, by simpa using ha⟩
  | succ n ih =>
      intro l hlen
      obtain _ | ⟨a, _ | ⟨b, _ | ⟨c, _ | ⟨d, rest⟩⟩⟩⟩ := l <;> simp at hlen
      obtain ⟨j, hj4, hne⟩ := ih rest (by omega)
      refine ⟨j, hj4, ?_⟩
      have hidx : 4 * (n + 1) + j = 4 * n + j + 4 := by ring
      simp only [patchSeeds]
      by_cases hz : a = 0 ∧ b = 0 ∧ c = 0 ∧ d = 0
      · rw [if_pos hz, hidx, getD_cons4]
        exact hne
      · rw [if_neg hz, hidx, getD_cons4]
        exact hne

/-!
## Host orchestrator (`gpu_manager.js`, `runFrame` / `resetStats`) and
## application state machine (`main.js`)

`runFrame` is asynchronous with a single true suspension point, the
`await mapAsync` inside the readback branch. It is modelled in two halves:
`runFrameBegin` covers everything up to and including setting
`this.isReading = true` and starting the map (command encoding, the compute
dispatch, the optional copy-to-staging + clear, submit); `runFrameComplete`
covers the resolution of the map — `MapOutcome.success` is the `try` body
(sum the staging buffer, unmap, cache and return the fresh aggregate) and
`MapOutcome.failure` is the `catch` branch (log a warning, return
`this.lastResult`); both run the `finally` clause `this.isReading = false`.
The returned `Bool` records whether the warning was logged.
-/

inductive MapOutcome
  | success
  | failure
deriving DecidableEq

/-- `runFrame`'s `options` argument: `{ render, readback, sync }` flags. -/
structure FrameOptions where
  render : Bool
  readback : Bool
  sync : Bool
deriving DecidableEq

/-- The host-visible state of `GPUManager` that `runFrame`, `resetStats`
and the seeding logic touch. The result buffer is split into its `inside`
and `total` counter columns; `staging` mirrors the readback buffer. -/
@[ext]
structure GPUState where
  frameCounter : ℕ
  isReading : Bool
  lastResult : ℕ × ℕ
  insideSlots : ℕ → Counter
  totalSlots : ℕ → Counter
  stagingInside : ℕ → Counter
  stagingTotal : ℕ → Counter
  rngState : List ℕ

/-- The guard of the readback branch:
`if (options.readback && !this.isReading)`. -/
def initiatesReadback (st : GPUState) (opts : FrameOptions) : Bool :=
  opts.readback && !st.isReading

/-- First half of `runFrame`: bump the frame counter, run the compute
dispatch (which adds every lane's counts into the sharded result buffer and
rewrites the RNG buffer), and, when the readback guard passes, copy the
result buffer to staging, clear it, and raise `isReading`. -/
def runFrameBegin (insides : ℕ → ℕ) (b : ℕ) (kernelRng : List ℕ → List ℕ)
    (st : GPUState) (opts : FrameOptions) : GPUState :=
  let afterCompute : GPUState :=
    { st with
      frameCounter := st.frameCounter + 1
      insideSlots := applyShardedDeltas st.insideSlots (baselineInsideDeltas insides totalThreads)
      totalSlots := applyShardedDeltas st.totalSlots (baselineTotalDeltas totalThreads b)
      rngState := kernelRng st.rngState }
  if initiatesReadback st opts then
    { afterCompute with
      stagingInside := afterCompute.insideSlots
      stagingTotal := afterCompute.totalSlots
      insideSlots := initSlots
      totalSlots := initSlots
      isReading := true }
  else
    afterCompute

/-- Second half of `runFrame`, resolving the pending map: the `try` body on
success, the `catch` branch on failure, and the `finally` clause in both.
Returns the new state, the aggregate handed back to the frame loop, and
whether the failure warning was logged. -/
def runFrameComplete (st : GPUState) (outcome : MapOutcome) :
    GPUState × (ℕ × ℕ) × Bool :=
  match outcome with
  | .success =>
      (({ st with
          isReading := false
          lastResult := (hostSum st.stagingInside, hostSum st.stagingTotal) },
        (hostSum st.stagingInside, hostSum st.stagingTotal), false))
  | .failure =>
      ({ st with isReading := false }, st.lastResult, true)

/-- The spec's benchmark phases, derived from the `App` booleans:
`Idle` when not benchmarking, `WarmUp` until the baseline snapshot is
locked, `SteadyState` afterwards. -/
inductive BenchPhase
  | idle
  | warmUp
  | steadyState
deriving DecidableEq

/-- The `App` state of `main.js` that `reset`, the benchmark phases and
`completeScientificBenchmark` touch (UI-only fields omitted). -/
@[ext]
structure AppState where
  isBenchmarking : Bool
  isTransitioning : Bool
  warmupBaselineSet : Bool
  accumulatedInside : ℤ
  accumulatedTotal : ℤ
  previousTotal : ℤ
  warmupInside : ℤ
  warmupTotal : ℤ
  gpu : GPUState

/-- `gpu_manager.js` lines 402–409, `resetStats`: clear the result buffer,
zero the frame counter and the cached BigInt aggregate. The RNG state
buffer is not touched. -/
def resetStats (g : GPUState) : GPUState :=
  { g with
    insideSlots := initSlots
    totalSlots := initSlots
    frameCounter := 0
    lastResult := (0, 0) }

/-- `main.js` `reset()`: stop benchmarking, call `gpu.resetStats()`, zero
the accumulated BigInt counters (UI updates omitted). -/
def appReset (st : AppState) : AppState :=
  { st with
    isBenchmarking := false
    gpu := resetStats st.gpu
    accumulatedInside := 0
    accumulatedTotal := 0
    previousTotal := 0 }

/-- Phase derivation from the code's booleans. -/
def phase (st : AppState) : BenchPhase :=
  if st.isBenchmarking then
    (if st.warmupBaselineSet then .steadyState else .warmUp)
  else
    .idle

/-- The final report of `completeScientificBenchmark` /
`showScientificReport`. -/
structure BenchReport where
  time : ℚ
  samples : ℤ
  speedM : ℚ
  gflops : ℚ
  errorRatio : ℚ
  theoryLimit : ℚ
  empiricalError : ℚ

/-- `main.js` lines 505–557, `completeScientificBenchmark` and its inner
`processResults`: compute the steady-state deltas against the warm-up
baseline; abort via `reset()` when no samples were counted, otherwise build
the report and clear the shared benchmark state for the next run. The
host's float values `Math.sqrt(Number(steadyTotal))` and `Math.PI` enter as
the parameters `sqrtSteadyTotal` and `piConst`; the remaining arithmetic is
exact over `ℚ`. The constant `15` is the code's FLOPs-per-sample factor. -/
def completeScientificBenchmark (st : AppState)
    (capturedTime sqrtSteadyTotal piConst : ℚ) : AppState × Option BenchReport :=
  let st1 : AppState := { st with isBenchmarking := false }
  let steadyInside : ℤ := st.accumulatedInside - st.warmupInside
  let steadyTotal : ℤ := st.accumulatedTotal - st.warmupTotal
  if steadyTotal ≤ 0 then
    (appReset st1, none)
  else
    let samplesPerSec : ℚ := (steadyTotal : ℚ) / capturedTime
    let gflops : ℚ := samplesPerSec * 15 / 1000000000
    let theoryError : ℚ := 1 / sqrtSteadyTotal
    let empiricalError : ℚ := |piConst - 4 * (steadyInside : ℚ) / (steadyTotal : ℚ)|
    let errorRatio : ℚ := empiricalError / theoryError
    ({ st1 with warmupBaselineSet := false, accumulatedInside := 0, accumulatedTotal := 0 },
     some { time := capturedTime
            samples := steadyTotal
            speedM := samplesPerSec / 1000000
            gflops := gflops
            errorRatio := errorRatio
            theoryLimit := theoryError
            empiricalError := empiricalError })

/-- A concrete `GPUManager` state as right after initialization: cleared
buffers, no readback in flight. -/
def gpuState0 : GPUState :=
  { frameCounter := 0
    isReading := false
    lastResult := (0, 0)
    insideSlots := initSlots
    totalSlots := initSlots
    stagingInside := initSlots
    stagingTotal := initSlots
    rngState := [] }

/-- A concrete `App` state in the steady-state phase with one counted
steady-state sample, used to exercise the finalize path. -/
def appState0 : AppState :=
  { isBenchmarking := true
    isTransitioning := false
    warmupBaselineSet := true
    accumulatedInside := 0
    accumulatedTotal := 1
    previousTotal := 0
    warmupInside := 0
    warmupTotal := 0
    gpu := gpuState0 }

/-!
## Claims
-/

/-- C1 (counterexample): the claim "the total count contributed by a
dispatch equals exactly L × b × 8 for every batch size b" fails on the
code: `private_total = count * 8u` is a `u32` multiply, so at
`b = 536870912 = 2^29` each lane's `private_total` wraps to `0` and a full
dispatch contributes `0` to the aggregate, not `32768 · 2^29 · 8`. -/
theorem dispatch_total_wraps_at_large_batch :
    hostSum (applyShardedDeltas initSlots (iterateTotalDeltas 1 536870912)) = 0 ∧
    totalThreads * 536870912 * 8 ≠ 0 := by
  have hz : privateTotal 536870912 = 0 := by norm_num [privateTotal, two32]
  have hs : listSum (iterateTotalDeltas 1 536870912) = 0 := by
    rw [listSum_iterateTotalDeltas, hz]
    ring
  have h1 : ∀ p ∈ iterateTotalDeltas 1 536870912, p.2 < two32 := by
    intro p hp
    rw [(mem_iterateTotalDeltas _ _ p hp).2]
    exact privateTotal_lt _
  have h2 : ∀ p ∈ iterateTotalDeltas 1 536870912, p.1 < NUM_SLOTS := by
    intro p hp
    exact (mem_iterateTotalDeltas _ _ p hp).1
  have h3 : listSum (iterateTotalDeltas 1 536870912) < two64 := by
    rw [hs]
    norm_num [two64]
  constructor
  · rw [hostSum_applyShardedDeltas _ h1 h2 h3, hs]
  · norm_num [totalThreads]

/-- C1 (amended): for every batch size `b` whose per-lane sample count
`b · 8` fits in a `u32`, and any number `k` of dispatches whose cumulative
count fits the 64-bit-equivalent counters, the aggregate counted by the
host after `k` dispatches of the fixed 32,768-lane kernel is exactly
`k · 32768 · b · 8` — no samples dropped or double-counted. With `b = 64`
one dispatch contributes 16,777,216 and ten dispatches 167,772,160. -/
theorem dispatch_total_exact (k b : ℕ) (hb : b * 8 < two32)
    (hcap : k * (totalThreads * (b * 8)) < two64) :
    hostSum (applyShardedDeltas initSlots (iterateTotalDeltas k b)) =
      k * (totalThreads * (b * 8)) := by
  have hpt : privateTotal b = b * 8 := Nat.mod_eq_of_lt hb
  have h1 : ∀ p ∈ iterateTotalDeltas k b, p.2 < two32 := by
    intro p hp
    rw [(mem_iterateTotalDeltas _ _ p hp).2]
    exact privateTotal_lt _
  have h2 : ∀ p ∈ iterateTotalDeltas k b, p.1 < NUM_SLOTS := by
    intro p hp
    exact (mem_iterateTotalDeltas _ _ p hp).1
  have h3 : listSum (iterateTotalDeltas k b) < two64 := by
    rw [listSum_iterateTotalDeltas, hpt]
    exact hcap
  rw [hostSum_applyShardedDeltas _ h1 h2 h3, listSum_iterateTotalDeltas, hpt]

/-- C1 (witness): ten dispatches at batch size 64 count exactly
167,772,160 samples. -/
theorem dispatch_total_exact_witness :
    64 * 8 < two32 ∧ 10 * (totalThreads * (64 * 8)) < two64 ∧
    hostSum (applyShardedDeltas initSlots (iterateTotalDeltas 10 64)) = 167772160 := by
  refine ⟨by norm_num [two32], by norm_num [totalThreads, two64], ?_⟩
  rw [dispatch_total_exact 10 64 (by norm_num [two32]) (by norm_num [totalThreads, two64])]
  norm_num [totalThreads]

/-- C2: the overflow scheme — `u32` add to the `low` field with the
unsigned wraparound test `(old + delta) mod 2^32 < old` triggering an
increment of the matching `high` field — makes the host-computed value
`low + high·2^32`, summed over all 1024 slots, equal the exact mathematical
sum of all deltas ever added (single writer per slot per addition, deltas
in `u32` range, per-window totals below the `2^64` pair capacity). -/
theorem sharded_overflow_scheme_exact (ds : List (ℕ × ℕ))
    (hdelta : ∀ p ∈ ds, p.2 < two32)
    (hslot : ∀ p ∈ ds, p.1 < NUM_SLOTS)
    (hbound : listSum ds < two64) :
    hostSum (applyShardedDeltas initSlots ds) = listSum ds :=
  hostSum_applyShardedDeltas ds hdelta hslot hbound

/-- C2 (witness): a delta below and a delta above the wraparound boundary
of slot 0 — the second add wraps `low` and carries into `high`. -/
theorem sharded_overflow_scheme_exact_witness :
    (∀ p ∈ [((0 : ℕ), (4294967295 : ℕ)), (0, 5)], p.2 < two32) ∧
    listSum [((0 : ℕ), (4294967295 : ℕ)), (0, 5)] < two64 ∧
    hostSum (applyShardedDeltas initSlots [((0 : ℕ), (4294967295 : ℕ)), (0, 5)]) =
      listSum [((0 : ℕ), (4294967295 : ℕ)), (0, 5)] := by
  refine ⟨by decide, by decide, ?_⟩
  exact sharded_overflow_scheme_exact _ (by decide) (by decide) (by decide)

/-- Helper for C3: for one counter column, the subgroup-reduced delta
stream and the per-lane baseline delta stream produce the same host
aggregate whenever the subgroups partition the lane range and the `u32`
partial sums do not overflow. -/
theorem subgroup_baseline_hostSum (f : ℕ → ℕ) (sg : List (List ℕ))
    (hpart : sg.flatten.Perm (List.range totalThreads))
    (hf : ∀ g, f g < two32)
    (hg : ∀ G ∈ sg, (G.map f).sum < two32) :
    hostSum (applyShardedDeltas initSlots (subgroupInsideDeltas f sg)) =
      hostSum (applyShardedDeltas initSlots (baselineInsideDeltas f totalThreads)) := by
  have hsum_eq : (sg.flatten.map f).sum = ((List.range totalThreads).map f).sum :=
    (hpart.map f).sum_eq
  have hbound : ((List.range totalThreads).map f).sum < two64 := listSum_range_lt f hf
  have h1s : ∀ p ∈ subgroupInsideDeltas f sg, p.2 < two32 := by
    intro p hp
    unfold subgroupInsideDeltas at hp
    obtain ⟨G, hG, rfl⟩ := List.mem_map.mp hp
    exact Nat.mod_lt _ (by norm_num [two32])
  have h2s : ∀ p ∈ subgroupInsideDeltas f sg, p.1 < NUM_SLOTS := by
    intro p hp
    unfold subgroupInsideDeltas at hp
    obtain ⟨G, hG, rfl⟩ := List.mem_map.mp hp
    exact slotIdx_lt _
  have h3s : listSum (subgroupInsideDeltas f sg) < two64 := by
    rw [listSum_subgroupInsideDeltas f sg hg, hsum_eq]
    exact hbound
  have h1b : ∀ p ∈ baselineInsideDeltas f totalThreads, p.2 < two32 := by
    intro p hp
    unfold baselineInsideDeltas at hp
    obtain ⟨g, _, rfl⟩ := List.mem_map.mp hp
    exact hf g
  have h2b : ∀ p ∈ baselineInsideDeltas f totalThreads, p.1 < NUM_SLOTS := by
    intro p hp
    unfold baselineInsideDeltas at hp
    obtain ⟨g, _, rfl⟩ := List.mem_map.mp hp
    exact slotIdx_lt _
  have h3b : listSum (baselineInsideDeltas f totalThreads) < two64 := by
    rw [listSum_baselineInsideDeltas]
    exact hbound
  rw [hostSum_applyShardedDeltas _ h1s h2s h3s, hostSum_applyShardedDeltas _ h1b h2b h3b,
    listSum_subgroupInsideDeltas f sg hg, listSum_baselineInsideDeltas, hsum_eq]

/-- C3 (counterexample): the unconditional equivalence claim fails on the
code because `subgroupAdd` is a wrapping `u32` sum. With the same seed,
RNG state and batch size `b = 131072` (whose per-lane
`private_total = b·8 = 2^20` is perfectly representable), a subgroup
covering the 32,768 lanes collects `wg_total = 32768 · 2^20 = 2^35 ≡ 0
(mod 2^32)`, so the subgroup-injected path contributes `0` to the total
aggregate while the baseline per-lane path counts `2^35 = 34359738368` —
the `(inside, total)` aggregates are not identical. -/
theorem subgroup_total_wraps_counterexample :
    hostSum (applyShardedDeltas initSlots
      (subgroupTotalDeltas 131072 [List.range totalThreads])) = 0 ∧
    hostSum (applyShardedDeltas initSlots
      (baselineTotalDeltas totalThreads 131072)) = 34359738368 ∧
    (0 : ℕ) ≠ 34359738368 := by
  have hd : ((List.range totalThreads).map (fun _ => privateTotal 131072)).sum % two32 = 0 := by
    simp only [List.map_const', List.sum_replicate, List.length_range, smul_eq_mul]
    norm_num [privateTotal, two32, totalThreads]
  have hstream : subgroupTotalDeltas 131072 [List.range totalThreads] =
      [(slotIdx ((List.range totalThreads).headD 0), 0)] := by
    unfold subgroupTotalDeltas
    rw [List.map_cons, List.map_nil, hd]
  refine ⟨?_, ?_, by norm_num⟩
  · have hA : ∀ p ∈ [(slotIdx ((List.range totalThreads).headD 0), 0)], p.2 < two32 := by
      intro p hp
      simp only [List.mem_singleton] at hp
      rw [hp]
      norm_num [two32]
    have hB : ∀ p ∈ [(slotIdx ((List.range totalThreads).headD 0), 0)], p.1 < NUM_SLOTS := by
      intro p hp
      simp only [List.mem_singleton] at hp
      rw [hp]
      exact slotIdx_lt _
    have hC : listSum [(slotIdx ((List.range totalThreads).headD 0), 0)] < two64 := by
      simp only [listSum, List.map_cons, List.map_nil, List.sum_cons, List.sum_nil]
      norm_num [two64]
    rw [hstream, hostSum_applyShardedDeltas _ hA hB hC]
    simp [listSum]
  · have h1 : ∀ p ∈ baselineTotalDeltas totalThreads 131072, p.2 < two32 := by
      intro p hp
      rw [(mem_baselineTotalDeltas _ _ p hp).2]
      exact privateTotal_lt _
    have h2 : ∀ p ∈ baselineTotalDeltas totalThreads 131072, p.1 < NUM_SLOTS := by
      intro p hp
      exact (mem_baselineTotalDeltas _ _ p hp).1
    have h3 : listSum (baselineTotalDeltas totalThreads 131072) < two64 := by
      rw [listSum_baselineTotalDeltas]
      norm_num [privateTotal, two32, two64, totalThreads]
    rw [hostSum_applyShardedDeltas _ h1 h2 h3, listSum_baselineTotalDeltas]
    norm_num [privateTotal, two32, totalThreads]

/-- C3 (amended): with the same per-lane private counts (the sampling loop
is shared verbatim by both shader variants, so equal seeds, RNG states and
batch sizes give equal per-lane counts), and provided no subgroup's `u32`
collective partial sum wraps (every `subgroupAdd` result below `2^32` —
the condition the counterexample above violates), the baseline per-lane
reduction path and the subgroup-injected path (subgroupAdd + one elected
lane per subgroup) produce identical `(inside, total)` aggregates in the
result buffer as read back by the host. -/
theorem reduction_strategy_equivalence (insides : ℕ → ℕ) (b : ℕ) (sg : List (List ℕ))
    (hpart : sg.flatten.Perm (List.range totalThreads))
    (hins : ∀ g, insides g < two32)
    (hgi : ∀ G ∈ sg, (G.map insides).sum < two32)
    (hgt : ∀ G ∈ sg, (G.map (fun _ => privateTotal b)).sum < two32) :
    hostSum (applyShardedDeltas initSlots (subgroupInsideDeltas insides sg)) =
      hostSum (applyShardedDeltas initSlots (baselineInsideDeltas insides totalThreads)) ∧
    hostSum (applyShardedDeltas initSlots (subgroupTotalDeltas b sg)) =
      hostSum (applyShardedDeltas initSlots (baselineTotalDeltas totalThreads b)) := by
  refine ⟨subgroup_baseline_hostSum insides sg hpart hins hgi, ?_⟩
  rw [subgroupTotalDeltas_eq,
    show baselineTotalDeltas totalThreads b =
      baselineInsideDeltas (fun _ => privateTotal b) totalThreads from rfl]
  exact subgroup_baseline_hostSum (fun _ => privateTotal b) sg hpart
    (fun _ => privateTotal_lt b) hgt

/-- C3 (witness): a single subgroup covering all 32,768 lanes, zero inside
counts, batch size 64. -/
theorem reduction_strategy_equivalence_witness :
    ([List.range totalThreads]).flatten.Perm (List.range totalThreads) ∧
    (hostSum (applyShardedDeltas initSlots
        (subgroupInsideDeltas (fun _ => 0) [List.range totalThreads])) =
      hostSum (applyShardedDeltas initSlots
        (baselineInsideDeltas (fun _ => 0) totalThreads)) ∧
     hostSum (applyShardedDeltas initSlots
        (subgroupTotalDeltas 64 [List.range totalThreads])) =
      hostSum (applyShardedDeltas initSlots
        (baselineTotalDeltas totalThreads 64))) := by
  refine ⟨by simp, reduction_strategy_equivalence (fun _ => 0) 64 [List.range totalThreads]
    (by simp) (fun g => by norm_num [two32]) ?_ ?_⟩
  · intro G hG
    simp only [List.mem_singleton] at hG
    rw [hG]
    simp [two32]
  · intro G hG
    simp only [List.mem_singleton] at hG
    rw [hG]
    simp only [List.map_const', List.sum_replicate, List.length_range, smul_eq_mul]
    norm_num [privateTotal, two32, totalThreads]

/-- C4 (counterexample): the claim that the software path combines each
group's counts first and lets a single elected representative issue the
global atomic update is false: the shipped baseline shader has every lane
issue its own global atomic adds (section 6 runs unconditionally per
lane), so a dispatch performs one total-counter update per lane — 32,768
of them — not one per 256-lane workgroup (which would be 128). -/
theorem baseline_no_group_combination :
    (baselineTotalDeltas totalThreads 64).length = totalThreads ∧
    totalThreads ≠ totalThreads / WORKGROUP_SIZE := by
  constructor
  · simp [baselineTotalDeltas]
  · norm_num [totalThreads, WORKGROUP_SIZE]

/-- C4 (amended): in the software (non-subgroup) reduction path there is no
group-level combination at all: every lane `g < L` individually issues the
global atomic adds of its own private counts into slot `g mod NUM_SLOTS`;
election of a single updating lane happens only in the subgroup-injected
variant. -/
theorem baseline_per_lane_atomics (insides : ℕ → ℕ) (L b g : ℕ) (h : g < L) :
    (baselineTotalDeltas L b)[g]? = some (slotIdx g, privateTotal b) ∧
    (baselineInsideDeltas insides L)[g]? = some (slotIdx g, insides g) ∧
    (baselineTotalDeltas L b).length = L := by
  refine ⟨?_, ?_, by simp [baselineTotalDeltas]⟩
  · unfold baselineTotalDeltas
    rw [List.getElem?_map, List.getElem?_range h]
    rfl
  · unfold baselineInsideDeltas
    rw [List.getElem?_map, List.getElem?_range h]
    rfl

/-- C4 (witness): lane 5 of the fixed dispatch issues its own atomic add
into slot 5. -/
theorem baseline_per_lane_atomics_witness :
    5 < totalThreads ∧
    (baselineTotalDeltas totalThreads 64)[5]? = some (slotIdx 5, privateTotal 64) := by
  refine ⟨by norm_num [totalThreads], ?_⟩
  exact (baseline_per_lane_atomics (fun _ => 0) totalThreads 64 5
    (by norm_num [totalThreads])).1

/-- C5: at benchmark finalize, a steady-state window with no counted
samples aborts via `reset()` and reports no metric; otherwise the report
satisfies samples/sec `= (final_total − baseline_total) / elapsed`,
GFLOPS `= samples/sec · 15 / 10^9`, empirical error
`= |4·ΔI/ΔT − π|`, theoretical error `= 1/√ΔT` (with `sqrtT` the host's
square root of `ΔT`), and error ratio `= empirical / theoretical`. -/
theorem finalize_metrics (st : AppState) (t sqrtT piC : ℚ) :
    (st.accumulatedTotal - st.warmupTotal ≤ 0 →
      completeScientificBenchmark st t sqrtT piC =
        (appReset { st with isBenchmarking := false }, none)) ∧
    (0 < st.accumulatedTotal - st.warmupTotal →
      sqrtT * sqrtT = ((st.accumulatedTotal - st.warmupTotal : ℤ) : ℚ) →
      ∃ r, (completeScientificBenchmark st t sqrtT piC).2 = some r ∧
        r.speedM = ((st.accumulatedTotal - st.warmupTotal : ℤ) : ℚ) / t / 1000000 ∧
        r.gflops = ((st.accumulatedTotal - st.warmupTotal : ℤ) : ℚ) / t * 15 / 1000000000 ∧
        r.empiricalError = |4 * ((st.accumulatedInside - st.warmupInside : ℤ) : ℚ) /
          ((st.accumulatedTotal - st.warmupTotal : ℤ) : ℚ) - piC| ∧
        r.theoryLimit = 1 / sqrtT ∧
        r.errorRatio = r.empiricalError / r.theoryLimit) := by
  constructor
  · intro h
    simp only [completeScientificBenchmark]
    rw [if_pos h]
  · intro h _
    simp only [completeScientificBenchmark]
    rw [if_neg (not_le.mpr h)]
    refine ⟨_, rfl, rfl, rfl, ?_, rfl, rfl⟩
    exact abs_sub_comm _ _

/-- C5 (witness): finalizing from a steady-state window with one counted
sample produces a report obeying the metric formulas. -/
theorem finalize_metrics_witness :
    (0 : ℤ) < appState0.accumulatedTotal - appState0.warmupTotal ∧
    ∃ r, (completeScientificBenchmark appState0 1 1 3).2 = some r ∧
      r.speedM = ((appState0.accumulatedTotal - appState0.warmupTotal : ℤ) : ℚ) / 1 / 1000000 ∧
      r.gflops = ((appState0.accumulatedTotal - appState0.warmupTotal : ℤ) : ℚ) / 1 * 15 / 1000000000 ∧
      r.empiricalError = |4 * ((appState0.accumulatedInside - appState0.warmupInside : ℤ) : ℚ) /
        ((appState0.accumulatedTotal - appState0.warmupTotal : ℤ) : ℚ) - 3| ∧
      r.theoryLimit = 1 / 1 ∧
      r.errorRatio = r.empiricalError / r.theoryLimit := by
  refine ⟨by norm_num [appState0], ?_⟩
  exact (finalize_metrics appState0 1 1 3).2 (by norm_num [appState0])
    (by norm_num [appState0])

/-- C6: after seeding, every lane's 16-word (512-bit) RNG state contains at
least one non-zero word: the patch loop replaces the first word of any
all-zero aligned 4-word group with the non-zero constant `0x9E3779B9`, and
a group that was not patched already had a non-zero word. -/
theorem rng_seed_nonzero (seedData : List ℕ)
    (hlen : seedData.length = totalThreads * 16)
    (lane : ℕ) (hlane : lane < totalThreads) :
    ∃ j < 16, (patchSeeds seedData).getD (lane * 16 + j) 0 ≠ 0 := by
  have h4 : 4 * (4 * lane) + 4 ≤ seedData.length := by
    rw [hlen]
    unfold totalThreads at *
    omega
  obtain ⟨j, hj, hne⟩ := patchSeeds_group_nonzero (4 * lane) seedData h4
  refine ⟨j, by omega, ?_⟩
  rw [show lane * 16 + j = 4 * (4 * lane) + j by ring]
  exact hne

/-- C6 (witness): an adversarially all-zero entropy draw still leaves lane
0 with a non-zero word after patching. -/
theorem rng_seed_nonzero_witness :
    (List.replicate (totalThreads * 16) 0).length = totalThreads * 16 ∧
    0 < totalThreads ∧
    ∃ j < 16, (patchSeeds (List.replicate (totalThreads * 16) 0)).getD (0 * 16 + j) 0 ≠ 0 := by
  refine ⟨by simp, by norm_num [totalThreads], ?_⟩
  exact rng_seed_nonzero _ (by simp) 0 (by norm_num [totalThreads])

/-- C7: every lane adds into slot `gid mod NUM_SLOTS` with the shard count
fixed at 1024 independent of thread count, so at most
`totalThreads / NUM_SLOTS = 32` of the 32,768 lanes map to any single
slot. -/
theorem slot_mapping_contention_bound :
    NUM_SLOTS = 1024 ∧ totalThreads / NUM_SLOTS = 32 ∧
    (∀ g, slotIdx g = g % 1024) ∧
    ∀ s, ((Finset.range totalThreads).filter (fun g => slotIdx g = s)).card ≤
      totalThreads / NUM_SLOTS := by
  refine ⟨rfl, by norm_num [totalThreads, NUM_SLOTS], fun g => rfl, ?_⟩
  intro s
  have hsub : ((Finset.range totalThreads).filter (fun g => slotIdx g = s)).card ≤
      (Finset.range 32).card := by
    apply Finset.card_le_card_of_injOn (fun g => g / 1024)
    · intro a ha
      simp only [Finset.mem_filter, Finset.mem_range] at ha
      simp only [Finset.mem_range]
      unfold totalThreads at ha
      omega
    · intro a ha b hb hab
      simp only [Finset.coe_filter, Set.mem_setOf_eq, Finset.mem_range] at ha hb
      unfold slotIdx NUM_SLOTS at ha hb
      simp only at hab
      omega
  rw [Finset.card_range] at hsub
  rw [show totalThreads / NUM_SLOTS = 32 by norm_num [totalThreads, NUM_SLOTS]]
  exact hsub

/-- C8: a `runFrame` call that passes the readback guard leaves
`isReading = true` for the whole pending window, and any `runFrame` call
beginning inside that window fails the guard — so a second concurrent
readback is structurally impossible; and when the asynchronous map fails,
the `catch` branch logs a warning and hands the last known good aggregate
back to the frame loop instead of propagating the failure. -/
theorem readback_guard_and_failure_fallback (st st2 : GPUState)
    (opts opts' : FrameOptions) (insides : ℕ → ℕ) (b : ℕ)
    (kernelRng : List ℕ → List ℕ)
    (h : initiatesReadback st opts = true) :
    (runFrameBegin insides b kernelRng st opts).isReading = true ∧
    initiatesReadback (runFrameBegin insides b kernelRng st opts) opts' = false ∧
    (runFrameComplete st2 MapOutcome.failure).2.1 = st2.lastResult ∧
    (runFrameComplete st2 MapOutcome.failure).2.2 = true := by
  refine ⟨?_, ?_, rfl, rfl⟩
  · unfold runFrameBegin
    rw [if_pos h]
  · unfold runFrameBegin
    rw [if_pos h]
    simp [initiatesReadback]

/-- C8 (witness): a concrete idle state with `readback: true` passes the
guard; the pending window then rejects a second readback, and the failure
path returns the cached aggregate. -/
theorem readback_guard_witness :
    initiatesReadback gpuState0 ⟨false, true, false⟩ = true ∧
    ((runFrameBegin (fun _ => 0) 64 id gpuState0 ⟨false, true, false⟩).isReading = true ∧
     initiatesReadback (runFrameBegin (fun _ => 0) 64 id gpuState0 ⟨false, true, false⟩)
       ⟨false, true, false⟩ = false ∧
     (runFrameComplete gpuState0 MapOutcome.failure).2.1 = gpuState0.lastResult ∧
     (runFrameComplete gpuState0 MapOutcome.failure).2.2 = true) := by
  refine ⟨rfl, ?_⟩
  exact readback_guard_and_failure_fallback gpuState0 gpuState0 _ _ (fun _ => 0) 64 id rfl

/-- C9: `reset()` from any prior state zeroes the accumulated inside/total
counters (both the app-level BigInt accumulators and the GPU result
buffer), returns the benchmark phase to Idle, is idempotent, and leaves
the per-lane RNG state buffer untouched. -/
theorem reset_idempotent_idle (st : AppState) :
    (appReset st).accumulatedInside = 0 ∧
    (appReset st).accumulatedTotal = 0 ∧
    hostSum (appReset st).gpu.insideSlots = 0 ∧
    hostSum (appReset st).gpu.totalSlots = 0 ∧
    (appReset st).gpu.lastResult = (0, 0) ∧
    phase (appReset st) = BenchPhase.idle ∧
    appReset (appReset st) = appReset st ∧
    (appReset st).gpu.rngState = st.gpu.rngState := by
  have hzero : hostSum initSlots = 0 := by
    unfold hostSum hostValue initSlots counterZero
    simp
  exact ⟨rfl, rfl, hzero, hzero, rfl, rfl, rfl, rfl⟩

/-- C10: both resolutions of a pending readback — success and failure —
run the `finally` clause, so every completed `runFrame` leaves
`isReading = false`, and the guard of the next call reduces to
`options.readback` alone: one failed readback can never permanently block
subsequent readbacks. -/
theorem isReading_restored (st : GPUState) (outcome : MapOutcome)
    (opts : FrameOptions) :
    (runFrameComplete st outcome).1.isReading = false ∧
    initiatesReadback (runFrameComplete st outcome).1 opts = opts.readback := by
  cases outcome <;> simp [runFrameComplete, initiatesReadback]

end SciPi
